import Mathlib

/-!
Verification of the sigsum-log-go front-end against its specification.

The development shallowly embeds the request parsers and response builders of
`reqres.go`, the cosignature collector of `internal/witness/witness.go`, and —
where the deciding code is not part of the source tree (the `StItem` wire
codec, the endpoint handlers, and the STH cosigning state machine) — models
those parts from the specification, faithful to its words.  Byte strings are
`List Nat` with every element below 256; Go `int64` arithmetic is embedded as
`Int` with explicit two's-complement wrapping where overflow matters.
-/

namespace Stfe

/-- A byte string: a list of naturals, well-formed when every element is below 256. -/
abbrev Bytes := List Nat

/-- Every element of the byte string is an actual byte value. -/
def bytesWf (bs : Bytes) : Bool := bs.all (· < 256)

/-! ## Wire-codec primitives (spec §4.1)

Modelled from the spec: the TLS-presentation codec of `types.go` is not under
`src/`; §4.1 prescribes fixed-width big-endian integers and variable-length
fields prefixed by a length of the smallest width sufficient for the declared
maximum.  Decoders consume a prefix of the input and return the decoded value
together with the unconsumed tail. -/

/-- Encode a natural as `w` big-endian bytes (most significant first). -/
def encUint : Nat → Nat → Bytes
  | 0, _ => []
  | w + 1, v => (v / 256 ^ w) :: encUint w (v % 256 ^ w)

/-- Decode `w` big-endian bytes from the front of the input. -/
def decUint : Nat → Bytes → Option (Nat × Bytes)
  | 0, bs => some (0, bs)
  | _ + 1, [] => none
  | w + 1, b :: bs =>
    match decUint w bs with
    | none => none
    | some (v, rest) => some (b * 256 ^ w + v, rest)

/-- Take exactly `n` bytes from the front of the input. -/
def decBytes : Nat → Bytes → Option (Bytes × Bytes)
  | 0, bs => some ([], bs)
  | _ + 1, [] => none
  | n + 1, b :: bs =>
    match decBytes n bs with
    | none => none
    | some (v, rest) => some (b :: v, rest)

/-- Encode a variable-length field: a `w`-byte length prefix followed by the content. -/
def encVar (w : Nat) (bs : Bytes) : Bytes := encUint w bs.length ++ bs

/-- Decode a variable-length field: read the `w`-byte length, then that many bytes. -/
def decVar (w : Nat) (bs : Bytes) : Option (Bytes × Bytes) :=
  match decUint w bs with
  | none => none
  | some (n, rest) => decBytes n rest

/-- A fixed-width integer round-trips in front of any tail. -/
theorem decUint_enc (w v : Nat) (h : v < 256 ^ w) (rest : Bytes) :
    decUint w (encUint w v ++ rest) = some (v, rest) := by
  induction w generalizing v rest with
  | zero =>
    interval_cases v
    simp [encUint, decUint]
  | succ w ih =>
    have hlt : v % 256 ^ w < 256 ^ w := Nat.mod_lt _ (Nat.pos_pow_of_pos w (by norm_num))
    simp only [encUint, List.cons_append, decUint, List.append_eq]
    rw [ih (v % 256 ^ w) hlt rest]
    simp [Nat.div_add_mod']

/-- A fixed-size byte field round-trips in front of any tail. -/
theorem decBytes_enc (n : Nat) (bs : Bytes) (h : bs.length = n) (rest : Bytes) :
    decBytes n (bs ++ rest) = some (bs, rest) := by
  induction n generalizing bs with
  | zero =>
    have : bs = [] := List.length_eq_zero.mp h
    simp [this, decBytes]
  | succ n ih =>
    match bs, h with
    | b :: bs, h =>
      have hlen : bs.length = n := by simpa using h
      simp [decBytes, ih bs hlen]

/-- A variable-length field round-trips in front of any tail. -/
theorem decVar_enc (w : Nat) (bs : Bytes) (h : bs.length < 256 ^ w) (rest : Bytes) :
    decVar w (encVar w bs ++ rest) = some (bs, rest) := by
  simp only [encVar, List.append_assoc, decVar, decUint_enc w bs.length h (bs ++ rest)]
  exact decBytes_enc bs.length bs rfl rest

/-- Decode exactly `n` consecutive items using the item decoder `dec1`. -/
def decN {α : Type} (dec1 : Bytes → Option (α × Bytes)) : Nat → Bytes → Option (List α × Bytes)
  | 0, bs => some ([], bs)
  | n + 1, bs =>
    match dec1 bs with
    | none => none
    | some (x, r) =>
      match decN dec1 n r with
      | none => none
      | some (xs, r2) => some (x :: xs, r2)

/-- A counted sequence of items round-trips in front of any tail, provided each
item's encoding round-trips in front of any tail. -/
theorem decN_enc {α : Type} (enc1 : α → Bytes) (dec1 : Bytes → Option (α × Bytes))
    (P : α → Prop) (h1 : ∀ x, P x → ∀ rest, dec1 (enc1 x ++ rest) = some (x, rest))
    (xs : List α) (hxs : ∀ x ∈ xs, P x) (rest : Bytes) :
    decN dec1 xs.length ((xs.map enc1).flatten ++ rest) = some (xs, rest) := by
  induction xs generalizing rest with
  | nil => simp [decN]
  | cons x xs ih =>
    have hx : P x := hxs x (by simp)
    have hxs' : ∀ y ∈ xs, P y := fun y hy => hxs y (by simp [hy])
    simp only [List.length_cons, List.map_cons, List.flatten_cons, List.append_assoc, decN]
    rw [h1 x hx _]
    simp [ih hxs' _]

/-- Encode a counted sequence: a `w`-byte count prefix followed by the encoded items. -/
def encSeq {α : Type} (w : Nat) (enc1 : α → Bytes) (xs : List α) : Bytes :=
  encUint w xs.length ++ (xs.map enc1).flatten

/-- Decode a counted sequence: read the `w`-byte count, then that many items. -/
def decSeq {α : Type} (w : Nat) (dec1 : Bytes → Option (α × Bytes)) (bs : Bytes) :
    Option (List α × Bytes) :=
  match decUint w bs with
  | none => none
  | some (n, rest) => decN dec1 n rest

/-- A counted sequence with its count prefix round-trips in front of any tail. -/
theorem decSeq_enc {α : Type} (w : Nat) (enc1 : α → Bytes) (dec1 : Bytes → Option (α × Bytes))
    (P : α → Prop) (h1 : ∀ x, P x → ∀ rest, dec1 (enc1 x ++ rest) = some (x, rest))
    (xs : List α) (hxs : ∀ x ∈ xs, P x) (hlen : xs.length < 256 ^ w) (rest : Bytes) :
    decSeq w dec1 (encSeq w enc1 xs ++ rest) = some (xs, rest) := by
  simp only [encSeq, List.append_assoc, decSeq, decUint_enc w xs.length hlen _]
  exact decN_enc enc1 dec1 P h1 xs hxs rest

/-! ## Data model (spec §3)

Modelled from the spec: `types.go` with the `StItem`/`Namespace` definitions is
not under `src/`.  Fixed 32-byte fields carry no length prefix; `package`
(declared maximum 256) and the unbounded byte fields (`log_id`, `signature`,
`message`, `extensions`) carry a 2-byte length prefix; hash paths and
cosignature lists carry a 2-byte count prefix; `u64` fields are 8 bytes,
format tags 2 bytes.  The spec leaves the tag values open; distinct values are
assigned in the order of §3's variant list. -/

/-- Identity carrier: a tagged union, at minimum Ed25519 (spec §3). -/
inductive Namespace where
  | ed25519V1 (nsId pub : Bytes)
deriving DecidableEq, Repr

/-- Tree head: timestamp, tree size, root hash, extensions (spec §3). -/
structure TreeHeadV1 where
  timestamp : Nat
  treeSize : Nat
  rootHash : Bytes
  extensions : Bytes
deriving DecidableEq, Repr

/-- Signed tree head: tree head, log id, log signature (spec §3). -/
structure SignedTreeHeadV1 where
  treeHead : TreeHeadV1
  logId : Bytes
  signature : Bytes
deriving DecidableEq, Repr

/-- A witness cosignature: witness namespace and signature (spec §3). -/
structure SignatureV1 where
  ns : Namespace
  signature : Bytes
deriving DecidableEq, Repr

/-- The tagged union of all wire items (spec §3). -/
inductive StItem where
  | checksumV1 (package checksum : Bytes) (ns : Namespace)
  | signedTreeHeadV1 (sth : SignedTreeHeadV1)
  | treeHeadV1 (th : TreeHeadV1)
  | cosignedTreeHeadV1 (sth : SignedTreeHeadV1) (cosignatures : List SignatureV1)
  | signatureV1 (sig : SignatureV1)
  | inclusionProofV1 (logId : Bytes) (treeSize leafIndex : Nat) (path : List Bytes)
  | consistencyProofV1 (logId : Bytes) (treeSize1 treeSize2 : Nat) (path : List Bytes)
  | signedDebugInfoV1 (logId message signature : Bytes)
deriving DecidableEq, Repr

/-- Well-formed namespace: two 32-byte byte strings. -/
def wfNamespace : Namespace → Bool
  | .ed25519V1 nsId pub =>
    bytesWf nsId && (nsId.length == 32) && bytesWf pub && (pub.length == 32)

/-- Well-formed unbounded byte field: bytes below 256, length below its 2-byte prefix bound. -/
def wfVar2 (bs : Bytes) : Bool := bytesWf bs && decide (bs.length < 256 ^ 2)

/-- Well-formed 32-byte hash. -/
def wfHash (bs : Bytes) : Bool := bytesWf bs && (bs.length == 32)

/-- Well-formed u64 value. -/
def wfU64 (v : Nat) : Bool := decide (v < 256 ^ 8)

/-- Well-formed tree head. -/
def wfTreeHeadV1 (th : TreeHeadV1) : Bool :=
  wfU64 th.timestamp && wfU64 th.treeSize && wfHash th.rootHash && wfVar2 th.extensions

/-- Well-formed signed tree head. -/
def wfSignedTreeHeadV1 (s : SignedTreeHeadV1) : Bool :=
  wfTreeHeadV1 s.treeHead && wfVar2 s.logId && wfVar2 s.signature

/-- Well-formed cosignature. -/
def wfSignatureV1 (s : SignatureV1) : Bool := wfNamespace s.ns && wfVar2 s.signature

/-- Well-formed `StItem` (spec §4.1: the codec law is stated for well-formed items). -/
def wfStItem : StItem → Bool
  | .checksumV1 package checksum ns =>
    bytesWf package && decide (package.length ≤ 256) && wfHash checksum && wfNamespace ns
  | .signedTreeHeadV1 sth => wfSignedTreeHeadV1 sth
  | .treeHeadV1 th => wfTreeHeadV1 th
  | .cosignedTreeHeadV1 sth cosignatures =>
    wfSignedTreeHeadV1 sth && decide (cosignatures.length < 256 ^ 2) &&
      cosignatures.all wfSignatureV1
  | .signatureV1 sig => wfSignatureV1 sig
  | .inclusionProofV1 logId treeSize leafIndex path =>
    wfVar2 logId && wfU64 treeSize && wfU64 leafIndex &&
      decide (path.length < 256 ^ 2) && path.all wfHash
  | .consistencyProofV1 logId treeSize1 treeSize2 path =>
    wfVar2 logId && wfU64 treeSize1 && wfU64 treeSize2 &&
      decide (path.length < 256 ^ 2) && path.all wfHash
  | .signedDebugInfoV1 logId message signature =>
    wfVar2 logId && wfVar2 message && wfVar2 signature

/-- Encode a namespace: 2-byte tag (Ed25519V1 is tag 1), then the two fixed keys. -/
def encNamespace : Namespace → Bytes
  | .ed25519V1 nsId pub => encUint 2 1 ++ (nsId ++ pub)

/-- Decode a namespace. -/
def decNamespace (bs : Bytes) : Option (Namespace × Bytes) :=
  match decUint 2 bs with
  | none => none
  | some (tag, r) =>
    if tag = 1 then
      match decBytes 32 r with
      | none => none
      | some (nsId, r1) =>
        match decBytes 32 r1 with
        | none => none
        | some (pub, r2) => some (.ed25519V1 nsId pub, r2)
    else none

/-- Encode a tree head body. -/
def encTreeHeadV1 (th : TreeHeadV1) : Bytes :=
  encUint 8 th.timestamp ++ (encUint 8 th.treeSize ++ (th.rootHash ++ encVar 2 th.extensions))

/-- Decode a tree head body. -/
def decTreeHeadV1 (bs : Bytes) : Option (TreeHeadV1 × Bytes) :=
  match decUint 8 bs with
  | none => none
  | some (timestamp, r1) =>
    match decUint 8 r1 with
    | none => none
    | some (treeSize, r2) =>
      match decBytes 32 r2 with
      | none => none
      | some (rootHash, r3) =>
        match decVar 2 r3 with
        | none => none
        | some (extensions, r4) => some (⟨timestamp, treeSize, rootHash, extensions⟩, r4)

/-- Encode a signed tree head body. -/
def encSignedTreeHeadV1 (s : SignedTreeHeadV1) : Bytes :=
  encTreeHeadV1 s.treeHead ++ (encVar 2 s.logId ++ encVar 2 s.signature)

/-- Decode a signed tree head body. -/
def decSignedTreeHeadV1 (bs : Bytes) : Option (SignedTreeHeadV1 × Bytes) :=
  match decTreeHeadV1 bs with
  | none => none
  | some (th, r1) =>
    match decVar 2 r1 with
    | none => none
    | some (logId, r2) =>
      match decVar 2 r2 with
      | none => none
      | some (signature, r3) => some (⟨th, logId, signature⟩, r3)

/-- Encode a cosignature body. -/
def encSignatureV1 (s : SignatureV1) : Bytes := encNamespace s.ns ++ encVar 2 s.signature

/-- Decode a cosignature body. -/
def decSignatureV1 (bs : Bytes) : Option (SignatureV1 × Bytes) :=
  match decNamespace bs with
  | none => none
  | some (ns, r1) =>
    match decVar 2 r1 with
    | none => none
    | some (signature, r2) => some (⟨ns, signature⟩, r2)

/-- A well-formed namespace round-trips in front of any tail. -/
theorem decNamespace_enc (n : Namespace) (h : wfNamespace n = true) (rest : Bytes) :
    decNamespace (encNamespace n ++ rest) = some (n, rest) := by
  cases n with
  | ed25519V1 nsId pub =>
    simp only [wfNamespace, Bool.and_eq_true, beq_iff_eq] at h
    obtain ⟨⟨⟨-, h1⟩, -⟩, h2⟩ := h
    simp only [encNamespace, List.append_assoc, decNamespace,
      decUint_enc 2 1 (by norm_num) _, decBytes_enc 32 nsId h1 _, decBytes_enc 32 pub h2 _,
      if_pos rfl, if_true]

/-- A well-formed tree head round-trips in front of any tail. -/
theorem decTreeHeadV1_enc (th : TreeHeadV1) (h : wfTreeHeadV1 th = true) (rest : Bytes) :
    decTreeHeadV1 (encTreeHeadV1 th ++ rest) = some (th, rest) := by
  simp only [wfTreeHeadV1, wfU64, wfHash, wfVar2, Bool.and_eq_true, beq_iff_eq,
    decide_eq_true_eq] at h
  obtain ⟨⟨⟨h1, h2⟩, -, h3⟩, -, h4⟩ := h
  simp only [encTreeHeadV1, List.append_assoc, decTreeHeadV1,
    decUint_enc 8 th.timestamp h1 _, decUint_enc 8 th.treeSize h2 _,
    decBytes_enc 32 th.rootHash h3 _, decVar_enc 2 th.extensions h4 _]

/-- A well-formed signed tree head round-trips in front of any tail. -/
theorem decSignedTreeHeadV1_enc (s : SignedTreeHeadV1) (h : wfSignedTreeHeadV1 s = true)
    (rest : Bytes) : decSignedTreeHeadV1 (encSignedTreeHeadV1 s ++ rest) = some (s, rest) := by
  simp only [wfSignedTreeHeadV1, Bool.and_eq_true] at h
  obtain ⟨⟨h1, h2⟩, h3⟩ := h
  simp only [wfVar2, Bool.and_eq_true, decide_eq_true_eq] at h2 h3
  simp only [encSignedTreeHeadV1, List.append_assoc, decSignedTreeHeadV1,
    decTreeHeadV1_enc s.treeHead h1 _, decVar_enc 2 s.logId h2.2 _,
    decVar_enc 2 s.signature h3.2 _]

/-- A well-formed cosignature round-trips in front of any tail. -/
theorem decSignatureV1_enc (s : SignatureV1) (h : wfSignatureV1 s = true) (rest : Bytes) :
    decSignatureV1 (encSignatureV1 s ++ rest) = some (s, rest) := by
  simp only [wfSignatureV1, Bool.and_eq_true] at h
  obtain ⟨h1, h2⟩ := h
  simp only [wfVar2, Bool.and_eq_true, decide_eq_true_eq] at h2
  simp only [encSignatureV1, List.append_assoc, decSignatureV1,
    decNamespace_enc s.ns h1 _, decVar_enc 2 s.signature h2.2 _]

/-- Serialize an `StItem`: a 2-byte format tag followed by the variant body
(spec §4.1; tags assigned in §3's listing order). -/
def StItem.Marshal : StItem → Bytes
  | .checksumV1 package checksum ns =>
    encUint 2 1 ++ (encVar 2 package ++ (checksum ++ encNamespace ns))
  | .signedTreeHeadV1 sth => encUint 2 2 ++ encSignedTreeHeadV1 sth
  | .treeHeadV1 th => encUint 2 3 ++ encTreeHeadV1 th
  | .cosignedTreeHeadV1 sth cosignatures =>
    encUint 2 4 ++ (encSignedTreeHeadV1 sth ++ encSeq 2 encSignatureV1 cosignatures)
  | .signatureV1 sig => encUint 2 5 ++ encSignatureV1 sig
  | .inclusionProofV1 logId treeSize leafIndex path =>
    encUint 2 6 ++ (encVar 2 logId ++ (encUint 8 treeSize ++ (encUint 8 leafIndex ++
      encSeq 2 (fun h => h) path)))
  | .consistencyProofV1 logId treeSize1 treeSize2 path =>
    encUint 2 7 ++ (encVar 2 logId ++ (encUint 8 treeSize1 ++ (encUint 8 treeSize2 ++
      encSeq 2 (fun h => h) path)))
  | .signedDebugInfoV1 logId message signature =>
    encUint 2 8 ++ (encVar 2 logId ++ (encVar 2 message ++ encVar 2 signature))

/-- Decode a 32-byte node hash. -/
def decHash (bs : Bytes) : Option (Bytes × Bytes) := decBytes 32 bs

/-- Decode the `ChecksumV1` body. -/
def decChecksumBody (bs : Bytes) : Option (StItem × Bytes) :=
  match decVar 2 bs with
  | none => none
  | some (package, r1) =>
    match decBytes 32 r1 with
    | none => none
    | some (checksum, r2) =>
      match decNamespace r2 with
      | none => none
      | some (ns, r3) => some (.checksumV1 package checksum ns, r3)

/-- Decode the `CosignedTreeHeadV1` body. -/
def decCosignedBody (bs : Bytes) : Option (StItem × Bytes) :=
  match decSignedTreeHeadV1 bs with
  | none => none
  | some (sth, r1) =>
    match decSeq 2 decSignatureV1 r1 with
    | none => none
    | some (cosignatures, r2) => some (.cosignedTreeHeadV1 sth cosignatures, r2)

/-- Decode the `InclusionProofV1` body. -/
def decInclusionBody (bs : Bytes) : Option (StItem × Bytes) :=
  match decVar 2 bs with
  | none => none
  | some (logId, r1) =>
    match decUint 8 r1 with
    | none => none
    | some (treeSize, r2) =>
      match decUint 8 r2 with
      | none => none
      | some (leafIndex, r3) =>
        match decSeq 2 decHash r3 with
        | none => none
        | some (path, r4) => some (.inclusionProofV1 logId treeSize leafIndex path, r4)

/-- Decode the `ConsistencyProofV1` body. -/
def decConsistencyBody (bs : Bytes) : Option (StItem × Bytes) :=
  match decVar 2 bs with
  | none => none
  | some (logId, r1) =>
    match decUint 8 r1 with
    | none => none
    | some (treeSize1, r2) =>
      match decUint 8 r2 with
      | none => none
      | some (treeSize2, r3) =>
        match decSeq 2 decHash r3 with
        | none => none
        | some (path, r4) => some (.consistencyProofV1 logId treeSize1 treeSize2 path, r4)

/-- Decode the `SignedDebugInfoV1` body. -/
def decSdiBody (bs : Bytes) : Option (StItem × Bytes) :=
  match decVar 2 bs with
  | none => none
  | some (logId, r1) =>
    match decVar 2 r1 with
    | none => none
    | some (message, r2) =>
      match decVar 2 r2 with
      | none => none
      | some (signature, r3) => some (.signedDebugInfoV1 logId message signature, r3)

/-- Decode an `StItem` off the front of the input: 2-byte tag dispatch, then the
variant body; unknown tags fail (spec §4.1). -/
def decStItem (bs : Bytes) : Option (StItem × Bytes) :=
  match decUint 2 bs with
  | none => none
  | some (tag, r) =>
    if tag = 1 then decChecksumBody r
    else if tag = 2 then
      match decSignedTreeHeadV1 r with
      | none => none
      | some (sth, r1) => some (.signedTreeHeadV1 sth, r1)
    else if tag = 3 then
      match decTreeHeadV1 r with
      | none => none
      | some (th, r1) => some (.treeHeadV1 th, r1)
    else if tag = 4 then decCosignedBody r
    else if tag = 5 then
      match decSignatureV1 r with
      | none => none
      | some (sig, r1) => some (.signatureV1 sig, r1)
    else if tag = 6 then decInclusionBody r
    else if tag = 7 then decConsistencyBody r
    else if tag = 8 then decSdiBody r
    else none

/-- Strict decode of a whole buffer: no trailing bytes allowed (spec §4.1). -/
def StItem.Unmarshal (bs : Bytes) : Option StItem :=
  match decStItem bs with
  | some (x, []) => some x
  | _ => none

/-- A well-formed 32-byte node hash round-trips in front of any tail. -/
theorem decHash_enc (hs : Bytes) (h : wfHash hs = true) (rest : Bytes) :
    decHash (hs ++ rest) = some (hs, rest) := by
  simp only [wfHash, Bool.and_eq_true, beq_iff_eq] at h
  exact decBytes_enc 32 hs h.2 rest

/-- A well-formed `StItem` round-trips in front of any tail. -/
theorem decStItem_enc (x : StItem) (h : wfStItem x = true) (rest : Bytes) :
    decStItem (StItem.Marshal x ++ rest) = some (x, rest) := by
  cases x with
  | checksumV1 package checksum ns =>
    simp only [wfStItem, Bool.and_eq_true, decide_eq_true_eq] at h
    obtain ⟨⟨⟨-, hp⟩, hc⟩, hn⟩ := h
    have hp' : package.length < 256 ^ 2 := by omega
    have hc' : checksum.length = 32 := by
      simpa [wfHash, Bool.and_eq_true, beq_iff_eq] using And.right
        (by simpa [wfHash, Bool.and_eq_true, beq_iff_eq] using hc :
          bytesWf checksum = true ∧ checksum.length = 32)
    simp [StItem.Marshal, decStItem, decUint_enc 2 1 (by norm_num) _, decChecksumBody,
      decVar_enc 2 package hp' _, decBytes_enc 32 checksum hc' _, decNamespace_enc ns hn _]
  | signedTreeHeadV1 sth =>
    simp only [wfStItem] at h
    simp [StItem.Marshal, decStItem, decUint_enc 2 2 (by norm_num) _,
      decSignedTreeHeadV1_enc sth h _]
  | treeHeadV1 th =>
    simp only [wfStItem] at h
    simp [StItem.Marshal, decStItem, decUint_enc 2 3 (by norm_num) _, decTreeHeadV1_enc th h _]
  | cosignedTreeHeadV1 sth cosignatures =>
    simp only [wfStItem, Bool.and_eq_true, decide_eq_true_eq, List.all_eq_true] at h
    obtain ⟨⟨hs, hlen⟩, hall⟩ := h
    simp [StItem.Marshal, decStItem, decUint_enc 2 4 (by norm_num) _, decCosignedBody,
      decSignedTreeHeadV1_enc sth hs _,
      decSeq_enc 2 encSignatureV1 decSignatureV1 (fun s => wfSignatureV1 s = true)
        (fun s hw rest => decSignatureV1_enc s hw rest) cosignatures hall hlen _]
  | signatureV1 sig =>
    simp only [wfStItem] at h
    simp [StItem.Marshal, decStItem, decUint_enc 2 5 (by norm_num) _, decSignatureV1_enc sig h _]
  | inclusionProofV1 logId treeSize leafIndex path =>
    simp only [wfStItem, Bool.and_eq_true, decide_eq_true_eq, List.all_eq_true] at h
    obtain ⟨⟨⟨⟨hid, h1⟩, h2⟩, hlen⟩, hall⟩ := h
    simp only [wfVar2, Bool.and_eq_true, decide_eq_true_eq] at hid
    simp only [wfU64, decide_eq_true_eq] at h1 h2
    simp [StItem.Marshal, decStItem, decUint_enc 2 6 (by norm_num) _, decInclusionBody,
      decVar_enc 2 logId hid.2 _, decUint_enc 8 treeSize h1 _, decUint_enc 8 leafIndex h2 _,
      decSeq_enc 2 (fun hs => hs) decHash (fun hs => wfHash hs = true)
        (fun hs hw rest => decHash_enc hs hw rest) path hall hlen _]
  | consistencyProofV1 logId treeSize1 treeSize2 path =>
    simp only [wfStItem, Bool.and_eq_true, decide_eq_true_eq, List.all_eq_true] at h
    obtain ⟨⟨⟨⟨hid, h1⟩, h2⟩, hlen⟩, hall⟩ := h
    simp only [wfVar2, Bool.and_eq_true, decide_eq_true_eq] at hid
    simp only [wfU64, decide_eq_true_eq] at h1 h2
    simp [StItem.Marshal, decStItem, decUint_enc 2 7 (by norm_num) _, decConsistencyBody,
      decVar_enc 2 logId hid.2 _, decUint_enc 8 treeSize1 h1 _, decUint_enc 8 treeSize2 h2 _,
      decSeq_enc 2 (fun hs => hs) decHash (fun hs => wfHash hs = true)
        (fun hs hw rest => decHash_enc hs hw rest) path hall hlen _]
  | signedDebugInfoV1 logId message signature =>
    simp only [wfStItem, Bool.and_eq_true] at h
    obtain ⟨⟨hid, hm⟩, hsig⟩ := h
    simp only [wfVar2, Bool.and_eq_true, decide_eq_true_eq] at hid hm hsig
    simp [StItem.Marshal, decStItem, decUint_enc 2 8 (by norm_num) _, decSdiBody,
      decVar_enc 2 logId hid.2 _, decVar_enc 2 message hm.2 _, decVar_enc 2 signature hsig.2 _]

/-- C1: the codec is symmetrical — decoding the strict encoding of any
well-formed `StItem` returns the item, for every variant of the tagged union. -/
theorem stitem_roundtrip (x : StItem) (h : wfStItem x = true) :
    StItem.Unmarshal (StItem.Marshal x) = some x := by
  have hx := decStItem_enc x h []
  simp only [List.append_nil] at hx
  simp [StItem.Unmarshal, hx]

/-- A concrete well-formed `ChecksumV1` item used to witness the codec law. -/
def sampleItem : StItem :=
  .checksumV1 [102, 111, 111] (List.replicate 32 0)
    (.ed25519V1 (List.replicate 32 1) (List.replicate 32 2))

/-- C1 witness: the round-trip law evaluated at a concrete item. -/
theorem stitem_roundtrip_witness :
    StItem.Unmarshal (StItem.Marshal sampleItem) = some sampleItem :=
  stitem_roundtrip sampleItem (by decide)

/-! ## HTTP status surface (spec §6, §7) -/

/-- The status codes used by the front-end (spec §6: 200, 400, 405, 500). -/
inductive HttpStatus where
  | ok200
  | badRequest400
  | methodNotAllowed405
  | internalServerError500
deriving DecidableEq, Repr

/-- An `Except` value is a success. -/
def exceptOk {ε α : Type} : Except ε α → Bool
  | .ok _ => true
  | .error _ => false

/-- Modelled from the spec: the endpoint handlers are not under `src/`; per
§4.4 and §7, every request-parser failure is surfaced to the client as HTTP
400 Bad Request. -/
def parserStatus {α : Type} : Except String α → HttpStatus
  | .ok _ => .ok200
  | .error _ => .badRequest400

/-! ## Go int64 arithmetic

`strconv.ParseInt(_, 10, 64)` yields values in `[-2^63, 2^63-1]`; Go `int64`
addition and subtraction wrap in two's complement. -/

/-- Reduce an integer into the int64 range by two's-complement wrapping. -/
def wrap64 (x : Int) : Int := (x + 2 ^ 63) % 2 ^ 64 - 2 ^ 63

/-- Go int64 addition. -/
def i64add (a b : Int) : Int := wrap64 (a + b)

/-- Go int64 subtraction. -/
def i64sub (a b : Int) : Int := wrap64 (a - b)

/-- Wrapping is the identity on the int64 range. -/
theorem wrap64_eq_self (x : Int) (h1 : -(2 ^ 63) ≤ x) (h2 : x ≤ 2 ^ 63 - 1) :
    wrap64 x = x := by
  unfold wrap64
  rw [Int.emod_eq_of_lt (by omega) (by omega)]
  omega

/-! ## Request parsers (`reqres.go`) -/

/-- A get-entries request: 0-based inclusive start and end indices (`reqres.go`). -/
structure GetEntriesRequest where
  Start : Int
  End : Int
deriving DecidableEq, Repr

/-- A get-proof-by-hash request: leaf hash and tree size (`reqres.go`). -/
structure GetProofByHashRequest where
  Hash : Bytes
  TreeSize : Int
deriving DecidableEq, Repr

/-- A get-consistency-proof request: older and newer tree size (`reqres.go`). -/
structure GetConsistencyProofRequest where
  First : Int
  Second : Int
deriving DecidableEq, Repr

/-- `NewGetEntriesRequest` after integer parsing: reject a negative start or a
start above end, then truncate too-large ranges to the log's max range
(`reqres.go:87-107`).  Arithmetic wraps as Go int64 arithmetic does. -/
def NewGetEntriesRequest (maxRange start endV : Int) : Except String GetEntriesRequest :=
  if start < 0 then .error "bad parameters: start must have a non-negative value"
  else if start > endV then .error "bad parameters: start must be less than or equal to end"
  else if i64add (i64sub endV start) 1 > maxRange then
    .ok ⟨start, i64sub (i64add start maxRange) 1⟩
  else .ok ⟨start, endV⟩

/-- `NewGetProofByHashRequest` after integer parsing: reject a negative tree
size, then require the hash parameter to base64-decode (`reqres.go:111-125`);
`hash` is the decode result, `none` when decoding failed. -/
def NewGetProofByHashRequest (treeSize : Int) (hash : Option Bytes) :
    Except String GetProofByHashRequest :=
  if treeSize < 0 then .error "bad tree_size parameter: negative value"
  else
    match hash with
    | none => .error "bad hash parameter"
    | some h => .ok ⟨h, treeSize⟩

/-- `NewGetConsistencyProofRequest` after integer parsing: require a positive
first size strictly below the second (`reqres.go:127-145`). -/
def NewGetConsistencyProofRequest (first second : Int) : Except String GetConsistencyProofRequest :=
  if first < 1 then .error "bad parameters: first must be a natural number"
  else if first ≥ second then .error "bad parameters: second must be larger than first"
  else .ok ⟨first, second⟩

/-- C4 (code bug): `NewGetProofByHashRequest` accepts `tree_size == 0` — it only
rejects negative values — although the spec and `TestGetProofByHash` require a
BadRequest for `tree_size == 0`.  The parser evaluated at tree size 0 with a
valid 32-byte zero hash succeeds. -/
theorem getProofByHash_accepts_zero :
    NewGetProofByHashRequest 0 (some (List.replicate 32 0)) =
      .ok ⟨List.replicate 32 0, 0⟩ ∧
    parserStatus (NewGetProofByHashRequest 0 (some (List.replicate 32 0))) ≠
      .badRequest400 := by
  constructor
  · rfl
  · decide

/-- C5 counterexample: with max range 2, `start = 0` and `end = 2^63 − 1`, the
int64 computation `end − start + 1` wraps to `−2^63`, so no truncation happens
and `end` is returned unchanged, although mathematically
`end − start + 1 > MaxRange` and the claim demands `end = start + MaxRange − 1
= 1`. -/
theorem getEntries_overflow_cex :
    NewGetEntriesRequest 2 0 (2 ^ 63 - 1) = .ok ⟨0, 2 ^ 63 - 1⟩ ∧
    ((2 ^ 63 - 1 : Int) - 0 + 1 > 2) ∧ ((2 ^ 63 - 1 : Int) ≠ 0 + 2 - 1) := by
  refine ⟨?_, by norm_num, by norm_num⟩
  have e1 : i64sub (2 ^ 63 - 1 : Int) 0 = 2 ^ 63 - 1 := by
    unfold i64sub
    exact wrap64_eq_self _ (by omega) (by omega)
  have e2 : i64add (2 ^ 63 - 1 : Int) 1 = -(2 ^ 63) := by
    unfold i64add wrap64
    norm_num
  unfold NewGetEntriesRequest
  rw [if_neg (by omega), if_neg (by omega), e1, e2, if_neg (by omega)]

/-- C5 (amended): for int64-range inputs and a positive int64 max range,
`NewGetEntriesRequest` errors unless `0 ≤ start ≤ end`; when
`end − start + 1` does not overflow int64 it truncates `end` to
`start + MaxRange − 1` exactly when `end − start + 1 > MaxRange`; in the single
overflowing corner `(start, end) = (0, 2^63 − 1)` the wrapped difference skips
the truncation and `end` is returned unchanged. -/
theorem getEntries_range_spec (maxRange start endV : Int)
    (hs1 : -(2 ^ 63) ≤ start) (hs2 : start ≤ 2 ^ 63 - 1)
    (he1 : -(2 ^ 63) ≤ endV) (he2 : endV ≤ 2 ^ 63 - 1)
    (hm1 : 1 ≤ maxRange) (hm2 : maxRange ≤ 2 ^ 63 - 1) :
    (exceptOk (NewGetEntriesRequest maxRange start endV) = true ↔
      0 ≤ start ∧ start ≤ endV) ∧
    (0 ≤ start → start ≤ endV → endV - start + 1 ≤ 2 ^ 63 - 1 →
      (endV - start + 1 > maxRange →
        NewGetEntriesRequest maxRange start endV = .ok ⟨start, start + maxRange - 1⟩) ∧
      (endV - start + 1 ≤ maxRange →
        NewGetEntriesRequest maxRange start endV = .ok ⟨start, endV⟩)) ∧
    (start = 0 → endV = 2 ^ 63 - 1 →
      NewGetEntriesRequest maxRange start endV = .ok ⟨start, endV⟩) := by
  refine ⟨?_, ?_, ?_⟩
  · unfold NewGetEntriesRequest
    split_ifs <;> simp [exceptOk] <;> omega
  · intro h0 hle hnov
    have e1 : i64sub endV start = endV - start := by
      unfold i64sub
      exact wrap64_eq_self _ (by omega) (by omega)
    have e2 : i64add (endV - start) 1 = endV - start + 1 := by
      unfold i64add
      exact wrap64_eq_self _ (by omega) (by omega)
    constructor
    · intro hgt
      have e3 : i64add start maxRange = start + maxRange := by
        unfold i64add
        exact wrap64_eq_self _ (by omega) (by omega)
      have e4 : i64sub (start + maxRange) 1 = start + maxRange - 1 := by
        unfold i64sub
        exact wrap64_eq_self _ (by omega) (by omega)
      unfold NewGetEntriesRequest
      rw [if_neg (by omega), if_neg (by omega), e1, e2, if_pos (by omega), e3, e4]
    · intro hle2
      unfold NewGetEntriesRequest
      rw [if_neg (by omega), if_neg (by omega), e1, e2, if_neg (by omega)]
  · intro h1 h2
    subst h1
    subst h2
    have e1 : i64sub (2 ^ 63 - 1 : Int) 0 = 2 ^ 63 - 1 := by
      unfold i64sub
      exact wrap64_eq_self _ (by omega) (by omega)
    have e2 : i64add (2 ^ 63 - 1 : Int) 1 = -(2 ^ 63) := by
      unfold i64add wrap64
      norm_num
    unfold NewGetEntriesRequest
    rw [if_neg (by omega), if_neg (by omega), e1, e2, if_neg (by omega)]

/-- C5 witness: the amended range rule evaluated at max range 2 and the
in-range request `start = 0`, `end = 7`, which truncates to `end = 1`. -/
theorem getEntries_range_spec_witness :
    NewGetEntriesRequest 2 0 7 = .ok ⟨0, 0 + 2 - 1⟩ :=
  ((getEntries_range_spec 2 0 7 (by norm_num) (by norm_num) (by norm_num)
    (by norm_num) (by norm_num) (by norm_num)).2.1 (by norm_num) (by norm_num)
    (by norm_num)).1 (by norm_num)

/-- C6: `NewGetConsistencyProofRequest` succeeds exactly when
`1 ≤ first < second`; otherwise it fails and the failure is surfaced as
HTTP 400. -/
theorem getConsistencyProof_iff (first second : Int) :
    (exceptOk (NewGetConsistencyProofRequest first second) = true ↔
      1 ≤ first ∧ first < second) ∧
    (¬(1 ≤ first ∧ first < second) →
      parserStatus (NewGetConsistencyProofRequest first second) = .badRequest400) := by
  unfold NewGetConsistencyProofRequest
  constructor
  · split_ifs <;> simp [exceptOk] <;> omega
  · intro h
    split_ifs with h1 h2
    · rfl
    · rfl
    · exact absurd ⟨by omega, by omega⟩ h

/-- C6 witness: the acceptance rule evaluated at `first = 1`, `second = 2`. -/
theorem getConsistencyProof_iff_witness :
    exceptOk (NewGetConsistencyProofRequest 1 2) = true :=
  (getConsistencyProof_iff 1 2).1.mpr (by norm_num)

/-! ## Response builders (`reqres.go`) -/

/-- A DER-encoded certificate as stored in an appendix. -/
structure DerCert where
  Data : Bytes
deriving DecidableEq, Repr

/-- Per-leaf metadata stored alongside the leaf value (spec §3). -/
structure Appendix where
  Signature : Bytes
  SignatureScheme : Nat
  Chain : List DerCert
deriving DecidableEq, Repr

/-- A backend log leaf: leaf value plus extra data (the serialized appendix). -/
structure LogLeaf where
  LeafValue : Bytes
  ExtraData : Bytes
deriving DecidableEq, Repr

/-- An assembled log entry with its appendix content (`reqres.go`). -/
structure GetEntryResponse where
  Leaf : Bytes
  Signature : Bytes
  Chain : List Bytes
deriving DecidableEq, Repr

/-- `NewGetEntryResponse` (`reqres.go:148-158`): unmarshal the appendix and
assemble the entry; the leaf bytes pass through unchanged.  The appendix codec
lives in `types.go`, which is not under `src/`, so the decoder is a parameter. -/
def NewGetEntryResponse (unmarshalAppendix : Bytes → Except String Appendix)
    (leaf appendix : Bytes) : Except String GetEntryResponse :=
  match unmarshalAppendix appendix with
  | .error e => .error e
  | .ok app => .ok ⟨leaf, app.Signature, app.Chain.map DerCert.Data⟩

/-- `NewGetEntriesResponse` (`reqres.go:161-171`): assemble one entry per leaf,
in input order, aborting with the first *appendix that fails to unmarshal. -/
def NewGetEntriesResponse (unmarshalAppendix : Bytes → Except String Appendix) :
    List LogLeaf → Except String (List GetEntryResponse)
  | [] => .ok []
  | leaf :: rest =>
    match NewGetEntryResponse unmarshalAppendix leaf.LeafValue leaf.ExtraData with
    | .error e => .error e
    | .ok entry =>
      match NewGetEntriesResponse unmarshalAppendix rest with
      | .error e => .error e
      | .ok entries => .ok (entry :: entries)

/-- The appendix a leaf's extra data decodes to, defaulting on failure. -/
def appendixOf (unmarshalAppendix : Bytes → Except String Appendix) (l : LogLeaf) : Appendix :=
  match unmarshalAppendix l.ExtraData with
  | .ok app => app
  | .error _ => ⟨[], 0, []⟩

/-- C9: `NewGetEntriesResponse` is all-or-nothing — when every leaf's appendix
unmarshals it returns exactly one entry per leaf, in input order, with the
leaf bytes passed through unchanged; when any leaf's appendix fails to
unmarshal the whole call errors and returns no entries. -/
theorem getEntriesResponse_all_or_nothing (unmarshalAppendix : Bytes → Except String Appendix)
    (leaves : List LogLeaf) :
    ((∀ l ∈ leaves, exceptOk (unmarshalAppendix l.ExtraData) = true) →
      NewGetEntriesResponse unmarshalAppendix leaves =
        .ok (leaves.map fun l =>
          ⟨l.LeafValue, (appendixOf unmarshalAppendix l).Signature,
            (appendixOf unmarshalAppendix l).Chain.map DerCert.Data⟩)) ∧
    ((∃ l ∈ leaves, exceptOk (unmarshalAppendix l.ExtraData) = false) →
      exceptOk (NewGetEntriesResponse unmarshalAppendix leaves) = false) := by
  induction leaves with
  | nil =>
    constructor
    · intro _
      rfl
    · rintro ⟨l, hl, -⟩
      exact absurd hl (List.not_mem_nil l)
  | cons leaf rest ih =>
    constructor
    · intro hall
      have hhd := hall leaf (by simp)
      have htl := ih.1 fun l hl => hall l (by simp [hl])
      cases hu : unmarshalAppendix leaf.ExtraData with
      | error e => simp [hu, exceptOk] at hhd
      | ok app =>
        simp only [NewGetEntriesResponse, NewGetEntryResponse, hu, htl, List.map_cons]
        simp [appendixOf, hu]
    · rintro ⟨l, hl, hbad⟩
      rcases List.mem_cons.mp hl with hl | hl
      · subst hl
        simp only [NewGetEntriesResponse, NewGetEntryResponse]
        cases hu : unmarshalAppendix l.ExtraData with
        | error e => simp [exceptOk]
        | ok app => simp [hu, exceptOk] at hbad
      · have htl := ih.2 ⟨l, hl, hbad⟩
        simp only [NewGetEntriesResponse, NewGetEntryResponse]
        cases hu : unmarshalAppendix leaf.ExtraData with
        | error e => simp [exceptOk]
        | ok app =>
          cases hr : NewGetEntriesResponse unmarshalAppendix rest with
          | error e => simp [exceptOk]
          | ok entries => simp [hr, exceptOk] at htl

/-- A concrete appendix decoder used to witness the all-or-nothing law. -/
def sampleUnmarshalAppendix (bs : Bytes) : Except String Appendix :=
  if bs = [0] then .ok ⟨[7], 3, [⟨[9]⟩]⟩ else .error "malformed appendix"

/-- C9 witness: the assembled response at one concrete leaf whose appendix decodes. -/
theorem getEntriesResponse_all_or_nothing_witness :
    NewGetEntriesResponse sampleUnmarshalAppendix [⟨[1], [0]⟩] =
      .ok (List.map (fun l =>
        ⟨l.LeafValue, (appendixOf sampleUnmarshalAppendix l).Signature,
          (appendixOf sampleUnmarshalAppendix l).Chain.map DerCert.Data⟩) [⟨[1], [0]⟩]) :=
  (getEntriesResponse_all_or_nothing sampleUnmarshalAppendix [⟨[1], [0]⟩]).1 (by decide)

/-! ## add-entry request parsing (`reqres.go:54-81`) -/

/-- The JSON add-entry parameters (`reqres.go:17-22`). -/
structure AddEntryRequest where
  Item : Bytes
  Signature : Bytes
  SignatureScheme : Nat
  Chain : List Bytes
deriving DecidableEq, Repr

/-- Modelled from the spec: `NewAppendix(...).Marshal()`; the appendix codec of
`types.go` is not under `src/`.  Serializes the submitter signature, scheme and
chain with the §4.1 length-prefix rules. -/
def encAppendix (e : AddEntryRequest) : Bytes :=
  encVar 2 e.Signature ++ (encUint 2 e.SignatureScheme ++ encSeq 2 (encVar 4) e.Chain)

/-- `NewAddEntryRequest` (`reqres.go:54-81`): unpack the JSON body (`entry` is
`none` when that fails), decode the item as an `StItem`, require the
`ChecksumV1` format, build the certificate chain from the request's `Chain`
field, and verify the detached signature over the item bytes with `chain[0]`
and the request's `SignatureScheme` (the call at `reqres.go:72`); on success
return the leaf and appendix bytes.  The callees absent from `src/` are
parameters: `buildChainFromDerList` yields the parsed chain with its leading
certificate explicit (the code indexes `chain[0]`, so success implies a
nonempty chain), and `verifySignature` takes the leading certificate, the
scheme, the message and the signature.  A certificate is modelled by its
bytes. -/
def NewAddEntryRequest
    (buildChainFromDerList : List Bytes → Except String (Bytes × List Bytes))
    (verifySignature : Bytes → Nat → Bytes → Bytes → Bool)
    (entry : Option AddEntryRequest) : Except String (Bytes × Bytes) :=
  match entry with
  | none => .error "failed parsing json body"
  | some e =>
    match StItem.Unmarshal e.Item with
    | none => .error "failed unmarshaling StItem"
    | some item =>
      match item with
      | .checksumV1 _ _ _ =>
        match buildChainFromDerList e.Chain with
        | .error _ => .error "invalid certificate chain"
        | .ok (head, _) =>
          if verifySignature head e.SignatureScheme e.Item e.Signature = false then
            .error "invalid signature"
          else .ok (e.Item, encAppendix e)
      | _ => .error "invalid StItem format"

/-- The verification relation asserted by the claim, following the spec's
words (§4.4): the detached signature verifies under the public key carried
inside the submitter's namespace.  Stated only for comparison with the
source's chain-based verification; `ed25519Verify` is the underlying
signature-check primitive keyed by public key. -/
def namespaceVerify (ed25519Verify : Bytes → Bytes → Bytes → Bool) :
    Namespace → Bytes → Bytes → Bool
  | .ed25519V1 _ pub, message, signature => ed25519Verify pub message signature

/-- The signature primitive of the counterexample: signatures verify exactly
under the public key of the pair that produced them, here the 32-byte 10s. -/
def cexEd25519Verify (pub _message _signature : Bytes) : Bool :=
  pub == List.replicate 32 10

/-- The counterexample's chain-based verifier, as `verifySignature` behaves at
`reqres.go:72`: it checks the signature under the key of the leading
certificate (a certificate is modelled by its key bytes). -/
def cexVerifySignature (cert : Bytes) (_scheme : Nat) (message signature : Bytes) : Bool :=
  cexEd25519Verify cert message signature

/-- The counterexample's chain builder: parse the submitted DER list, failing
on an empty chain. -/
def cexBuildChainFromDerList : List Bytes → Except String (Bytes × List Bytes)
  | [] => .error "empty chain"
  | c :: cs => .ok (c, cs)

/-- The counterexample's submitted item: a well-formed `ChecksumV1` whose
namespace carries the 32-byte 11s — a key unrelated to the signing key. -/
def cexItem : StItem :=
  .checksumV1 [1] (List.replicate 32 0)
    (.ed25519V1 (List.replicate 32 3) (List.replicate 32 11))

/-- The counterexample's add-entry request: the serialized item, a signature
by the key pair of the 32-byte 10s, and a chain whose leading certificate
carries that signing key. -/
def cexEntry : AddEntryRequest :=
  ⟨StItem.Marshal cexItem, [9], 0, [List.replicate 32 10]⟩

/-- C2 counterexample: an add-entry request on which `NewAddEntryRequest`
succeeds although the detached signature does not verify under the submitter
namespace carried inside the `ChecksumV1` — the code verifies with `chain[0]`
from the request's chain field, which nothing ties to the item's namespace. -/
theorem addEntry_namespace_untied_cex :
    exceptOk (NewAddEntryRequest cexBuildChainFromDerList cexVerifySignature
      (some cexEntry)) = true ∧
    StItem.Unmarshal cexEntry.Item = some cexItem ∧
    namespaceVerify cexEd25519Verify
      (.ed25519V1 (List.replicate 32 3) (List.replicate 32 11))
      cexEntry.Item cexEntry.Signature = false := by
  refine ⟨by decide, by decide, by decide⟩

/-- C2 (amended): `NewAddEntryRequest` succeeds only when the body parsed, the
item decodes as an `StItem` of format `ChecksumV1`, the certificate chain
builds from the request's chain field, and the detached signature over the
item bytes verifies under the leading certificate `chain[0]` with the
request's signature scheme — the namespace inside the `ChecksumV1` plays no
role in verification; every failure is surfaced as HTTP 400 Bad Request. -/
theorem addEntry_parse_and_chain_verify
    (buildChainFromDerList : List Bytes → Except String (Bytes × List Bytes))
    (verifySignature : Bytes → Nat → Bytes → Bytes → Bool) (entry : Option AddEntryRequest) :
    (exceptOk (NewAddEntryRequest buildChainFromDerList verifySignature entry) = true →
      ∃ e package checksum ns head rest, entry = some e ∧
        StItem.Unmarshal e.Item = some (.checksumV1 package checksum ns) ∧
        buildChainFromDerList e.Chain = .ok (head, rest) ∧
        verifySignature head e.SignatureScheme e.Item e.Signature = true) ∧
    (exceptOk (NewAddEntryRequest buildChainFromDerList verifySignature entry) = false →
      parserStatus (NewAddEntryRequest buildChainFromDerList verifySignature entry) =
        .badRequest400) := by
  constructor
  · intro hok
    cases entry with
    | none => simp [NewAddEntryRequest, exceptOk] at hok
    | some e =>
      cases hu : StItem.Unmarshal e.Item with
      | none => simp [NewAddEntryRequest, hu, exceptOk] at hok
      | some item =>
        cases item with
        | checksumV1 package checksum ns =>
          cases hc : buildChainFromDerList e.Chain with
          | error msg => simp [NewAddEntryRequest, hu, hc, exceptOk] at hok
          | ok headRest =>
            obtain ⟨head, rest⟩ := headRest
            refine ⟨e, package, checksum, ns, head, rest, rfl, hu, hc, ?_⟩
            cases hv : verifySignature head e.SignatureScheme e.Item e.Signature with
            | false => simp [NewAddEntryRequest, hu, hc, hv, exceptOk] at hok
            | true => rfl
        | signedTreeHeadV1 sth => simp [NewAddEntryRequest, hu, exceptOk] at hok
        | treeHeadV1 th => simp [NewAddEntryRequest, hu, exceptOk] at hok
        | cosignedTreeHeadV1 sth cs => simp [NewAddEntryRequest, hu, exceptOk] at hok
        | signatureV1 sig => simp [NewAddEntryRequest, hu, exceptOk] at hok
        | inclusionProofV1 a b c d => simp [NewAddEntryRequest, hu, exceptOk] at hok
        | consistencyProofV1 a b c d => simp [NewAddEntryRequest, hu, exceptOk] at hok
        | signedDebugInfoV1 a b c => simp [NewAddEntryRequest, hu, exceptOk] at hok
  · intro hbad
    cases hr : NewAddEntryRequest buildChainFromDerList verifySignature entry with
    | ok v => simp [hr, exceptOk] at hbad
    | error msg => simp [parserStatus]

/-- C2 witness: a request whose body failed to parse is surfaced as HTTP 400. -/
theorem addEntry_parse_and_chain_verify_witness :
    parserStatus (NewAddEntryRequest (fun _ => .error "no chain") (fun _ _ _ _ => true) none) =
      .badRequest400 :=
  (addEntry_parse_and_chain_verify (fun _ => .error "no chain") (fun _ _ _ _ => true) none).2
    (by decide)

/-! ## STH cosigning state machine (spec §4.7)

Modelled from the spec: `ActiveSthSource` and its add-cosignature handler are
not under `src/`.  C7 holds the next STH candidate, its accumulated
cosignatures, and the set of witnesses already seen this rotation; namespace
equality is byte equality of the serialization, which on the `Namespace` sum
type is structural equality. -/

/-- The mutable C7 state relevant to add-cosignature: `next.sth` (serialized),
`next.cosignatures` and the `seen` set (spec §4.7). -/
structure CosiState where
  nextSth : Bytes
  nextCosignatures : List SignatureV1
  seen : List Namespace
deriving DecidableEq, Repr

/-- Modelled from the spec: the add-cosignature protocol, steps 1-5 of §4.7 —
reject an untrusted witness, reject an STH that differs from the next
candidate, verify the signature, treat an already-seen witness as idempotent
success, otherwise append the cosignature and record the witness. -/
def addCosignature (witnesses : List Namespace) (verify : Namespace → Bytes → Bytes → Bool)
    (st : CosiState) (witnessNs : Namespace) (sig submittedSth : Bytes) :
    HttpStatus × CosiState :=
  if witnessNs ∉ witnesses then (.badRequest400, st)
  else if submittedSth ≠ st.nextSth then (.badRequest400, st)
  else if verify witnessNs submittedSth sig = false then (.badRequest400, st)
  else if witnessNs ∈ st.seen then (.ok200, st)
  else (.ok200, ⟨st.nextSth, st.nextCosignatures ++ [⟨witnessNs, sig⟩], witnessNs :: st.seen⟩)

/-- C3: add-cosignature returns 200 only when the witness namespace is in the
accepted witness set and the submitted STH equals the current next candidate
byte-for-byte; a request failing either condition returns 400 and leaves the
C7 state unchanged. -/
theorem addCosignature_gating (witnesses : List Namespace)
    (verify : Namespace → Bytes → Bytes → Bool) (st : CosiState) (witnessNs : Namespace)
    (sig submittedSth : Bytes) :
    ((addCosignature witnesses verify st witnessNs sig submittedSth).1 = .ok200 →
      witnessNs ∈ witnesses ∧ submittedSth = st.nextSth) ∧
    (witnessNs ∉ witnesses ∨ submittedSth ≠ st.nextSth →
      addCosignature witnesses verify st witnessNs sig submittedSth = (.badRequest400, st)) := by
  unfold addCosignature
  constructor
  · split_ifs with h1 h2 h3 h4 <;> intro hok <;> simp_all
  · intro h
    split_ifs with h1 h2 <;> simp_all

/-- C3 witness: a witness outside the accepted set is rejected with 400 and no
state change, evaluated at a concrete state. -/
theorem addCosignature_gating_witness :
    addCosignature [] (fun _ _ _ => true) ⟨[1], [], []⟩ (.ed25519V1 [2] [3]) [4] [1] =
      (.badRequest400, ⟨[1], [], []⟩) :=
  (addCosignature_gating [] (fun _ _ _ => true) ⟨[1], [], []⟩ (.ed25519V1 [2] [3]) [4] [1]).2
    (Or.inl (by decide))

/-- C7: a successful add-cosignature from a witness not yet seen appends
exactly one `SignatureV1`, and replaying the same request in the same rotation
epoch is an idempotent success: it returns 200 and changes neither
`next.cosignatures` nor `seen`, so two successful calls add exactly one entry. -/
theorem addCosignature_idempotent (witnesses : List Namespace)
    (verify : Namespace → Bytes → Bytes → Bool) (st st1 : CosiState) (witnessNs : Namespace)
    (sig submittedSth : Bytes) (hnew : witnessNs ∉ st.seen)
    (h1 : addCosignature witnesses verify st witnessNs sig submittedSth = (.ok200, st1)) :
    addCosignature witnesses verify st1 witnessNs sig submittedSth = (.ok200, st1) ∧
    st1.nextCosignatures = st.nextCosignatures ++ [⟨witnessNs, sig⟩] ∧
    st1.seen = witnessNs :: st.seen := by
  have hw : witnessNs ∈ witnesses := by
    by_contra hw
    unfold addCosignature at h1
    rw [if_pos hw] at h1
    simpa using congrArg Prod.fst h1
  have hs : submittedSth = st.nextSth := by
    by_contra hs
    unfold addCosignature at h1
    rw [if_neg (not_not_intro hw), if_pos hs] at h1
    simpa using congrArg Prod.fst h1
  have hv : verify witnessNs submittedSth sig = true := by
    cases hv : verify witnessNs submittedSth sig with
    | true => rfl
    | false =>
      unfold addCosignature at h1
      rw [if_neg (not_not_intro hw), if_neg (not_not_intro hs), if_pos hv] at h1
      simpa using congrArg Prod.fst h1
  have hst : st1 = ⟨st.nextSth, st.nextCosignatures ++ [⟨witnessNs, sig⟩],
      witnessNs :: st.seen⟩ := by
    unfold addCosignature at h1
    rw [if_neg (not_not_intro hw), if_neg (not_not_intro hs), if_neg (by simp [hv]),
      if_neg hnew] at h1
    simpa using (congrArg Prod.snd h1).symm
  subst hst
  refine ⟨?_, rfl, rfl⟩
  unfold addCosignature
  rw [if_neg (not_not_intro hw), if_neg (by simp [hs]), if_neg (by simp [hv]),
    if_pos (by simp)]

/-- C7 witness: the idempotence law evaluated at a concrete witness and state. -/
theorem addCosignature_idempotent_witness :
    addCosignature [Namespace.ed25519V1 [1] [2]] (fun _ _ _ => true)
        ⟨[9], [⟨.ed25519V1 [1] [2], [7]⟩], [.ed25519V1 [1] [2]]⟩
        (.ed25519V1 [1] [2]) [7] [9] =
      (.ok200, ⟨[9], [⟨.ed25519V1 [1] [2], [7]⟩], [.ed25519V1 [1] [2]]⟩) ∧
    CosiState.nextCosignatures ⟨[9], [⟨.ed25519V1 [1] [2], [7]⟩], [.ed25519V1 [1] [2]]⟩ =
      CosiState.nextCosignatures ⟨[9], [], []⟩ ++ [⟨.ed25519V1 [1] [2], [7]⟩] ∧
    CosiState.seen ⟨[9], [⟨.ed25519V1 [1] [2], [7]⟩], [.ed25519V1 [1] [2]]⟩ =
      .ed25519V1 [1] [2] :: CosiState.seen ⟨[9], [], []⟩ :=
  addCosignature_idempotent [Namespace.ed25519V1 [1] [2]] (fun _ _ _ => true)
    ⟨[9], [], []⟩ ⟨[9], [⟨.ed25519V1 [1] [2], [7]⟩], [.ed25519V1 [1] [2]]⟩
    (.ed25519V1 [1] [2]) [7] [9] (by decide) (by decide)

/-! ## HTTP mux method discipline (spec §4.6)

Modelled from the spec: `handler.go` with `Handler.ServeHTTP` is not under
`src/`; per §4.6 each handler is registered with one method and rejects every
request of a different method with 405, before looking at the body. -/

/-- The HTTP methods used by the surface (spec §6). -/
inductive HttpMethod where
  | get
  | post
deriving DecidableEq, Repr

/-- An incoming HTTP request: its method and its body. -/
structure HttpRequest where
  method : HttpMethod
  body : Bytes

/-- A registered endpoint handler: its method and its endpoint logic. -/
structure Handler where
  method : HttpMethod
  run : HttpRequest → HttpStatus

/-- Modelled from the spec: `Handler.ServeHTTP` §4.6 — a request whose method
differs from the registered method is answered 405 Method Not Allowed;
otherwise the endpoint logic runs. -/
def serveHTTP (h : Handler) (r : HttpRequest) : HttpStatus :=
  if r.method ≠ h.method then .methodNotAllowed405 else h.run r

/-- C8: a POST to a GET-registered endpoint and a GET to a POST-registered
endpoint both return 405, whatever the request body. -/
theorem serveHTTP_method_discipline (h : Handler) (r : HttpRequest) :
    (h.method = .get → r.method = .post → serveHTTP h r = .methodNotAllowed405) ∧
    (h.method = .post → r.method = .get → serveHTTP h r = .methodNotAllowed405) := by
  constructor
  · intro hh hr
    unfold serveHTTP
    rw [if_pos (by simp [hh, hr])]
  · intro hh hr
    unfold serveHTTP
    rw [if_pos (by simp [hh, hr])]

/-- C8 witness: a POST to a concrete GET handler is answered 405. -/
theorem serveHTTP_method_discipline_witness :
    serveHTTP ⟨.get, fun _ => .ok200⟩ ⟨.post, [1, 2]⟩ = .methodNotAllowed405 :=
  (serveHTTP_method_discipline ⟨.get, fun _ => .ok200⟩ ⟨.post, [1, 2]⟩).1 rfl rfl

/-! ## Cosignature collector (`internal/witness/witness.go`)

The sigsum-go client, checkpoint and crypto types are not under `src/`, so
the key-hash function and `VerifyCosignatureByKey` (with the checkpoint fixed)
are parameters, and each witness's network behaviour is a script of oracle
responses for the successive iterations of the `getCosignature` retry loop.
The Go code queries all witnesses in parallel and drains their results from a
channel; the collection is embedded sequentially in list order — every proved
property is insensitive to the collection order. -/

/-- A verified cosignature (sigsum-go `types.Cosignature`). -/
structure Cosignature where
  Timestamp : Nat
  Signature : Bytes
deriving DecidableEq, Repr

/-- A witness as held by the collector (`witness.go:20-25`). -/
structure WitnessState where
  publicKey : Bytes
  keyHash : Bytes
  prevSize : Nat
deriving DecidableEq, Repr

/-- `newWitness` (`witness.go:27-34`): the key hash is the hash of the witness
public key, and the previous size starts at zero. -/
def newWitness (hashBytes : Bytes → Bytes) (publicKey : Bytes) : WitnessState :=
  ⟨publicKey, hashBytes publicKey, 0⟩

/-- One observed loop iteration of `getCosignature`: the consistency-proof
request fails, `AddCheckpoint` fails hard, `AddCheckpoint` reports a
conflicting old size, or `AddCheckpoint` returns a signature blob. -/
inductive WitnessResp where
  | proofErr
  | addErr
  | addConflict (oldSize : Nat)
  | addOk (signatures : Bytes)
deriving DecidableEq, Repr

/-- `getCosignature` (`witness.go:42-71`): loop over the script; an error from
the proof request or a hard `AddCheckpoint` error aborts, an old-size conflict
updates `prevSize` and retries, and a returned signature blob is verified
against the witness key — an exhausted script models a query that never came
back within the request context. -/
def getCosignature (verifyByKey : Bytes → Bytes → Option Cosignature) :
    List WitnessResp → WitnessState → Option (Bytes × Cosignature)
  | [], _ => none
  | resp :: script, w =>
    match resp with
    | .proofErr => none
    | .addErr => none
    | .addConflict oldSize => getCosignature verifyByKey script ⟨w.publicKey, w.keyHash, oldSize⟩
    | .addOk signatures =>
      match verifyByKey w.publicKey signatures with
      | none => none
      | some cs => some (w.keyHash, cs)

/-- Go map assignment `cosignatures[keyHash] = cs`: replace any entry under the
key and add the new binding. -/
def mapInsert (m : List (Bytes × Cosignature)) (k : Bytes) (cs : Cosignature) :
    List (Bytes × Cosignature) :=
  m.filter (fun p => p.1 ≠ k) ++ [(k, cs)]

/-- The collection loop of `GetCosignatures` (`witness.go:98-132`): each
witness is queried with its script; a failed query contributes nothing, a
successful one stores its cosignature under the witness key hash. -/
def GetCosignaturesAux (hashBytes : Bytes → Bytes)
    (verifyByKey : Bytes → Bytes → Option Cosignature) :
    List (Bytes × List WitnessResp) → List (Bytes × Cosignature) → List (Bytes × Cosignature)
  | [], m => m
  | (publicKey, script) :: ws, m =>
    match getCosignature verifyByKey script (newWitness hashBytes publicKey) with
    | none => GetCosignaturesAux hashBytes verifyByKey ws m
    | some (k, cs) => GetCosignaturesAux hashBytes verifyByKey ws (mapInsert m k cs)

/-- `CosignatureCollector.GetCosignatures` (`witness.go:98-132`) over the
witnesses' public keys and their response scripts. -/
def GetCosignatures (hashBytes : Bytes → Bytes)
    (verifyByKey : Bytes → Bytes → Option Cosignature)
    (ws : List (Bytes × List WitnessResp)) : List (Bytes × Cosignature) :=
  GetCosignaturesAux hashBytes verifyByKey ws []

/-- A successful `getCosignature` result carries the witness's own key hash and
a cosignature that verified against the witness's public key. -/
theorem getCosignature_some (verifyByKey : Bytes → Bytes → Option Cosignature)
    (script : List WitnessResp) (w : WitnessState) (k : Bytes) (cs : Cosignature)
    (h : getCosignature verifyByKey script w = some (k, cs)) :
    k = w.keyHash ∧ ∃ sigs, verifyByKey w.publicKey sigs = some cs := by
  induction script generalizing w with
  | nil => simp [getCosignature] at h
  | cons resp script ih =>
    cases resp with
    | proofErr => simp [getCosignature] at h
    | addErr => simp [getCosignature] at h
    | addConflict oldSize => exact ih ⟨w.publicKey, w.keyHash, oldSize⟩ h
    | addOk signatures =>
      simp only [getCosignature] at h
      cases hv : verifyByKey w.publicKey signatures with
      | none => simp [hv] at h
      | some cs' =>
        rw [hv] at h
        simp only [Option.some.injEq, Prod.mk.injEq] at h
        exact ⟨h.1.symm, signatures, by rw [hv, h.2]⟩

/-- Membership in an updated map: an entry is an old one under a different key,
or the new binding. -/
theorem mem_mapInsert (m : List (Bytes × Cosignature)) (k k1 : Bytes) (cs cs1 : Cosignature)
    (h : (k1, cs1) ∈ mapInsert m k cs) : (k1, cs1) ∈ m ∨ (k1 = k ∧ cs1 = cs) := by
  unfold mapInsert at h
  rcases List.mem_append.mp h with h | h
  · exact Or.inl (List.mem_of_mem_filter h)
  · simp only [List.mem_singleton, Prod.mk.injEq] at h
    exact Or.inr h

/-- Updating a map with no duplicate keys keeps its keys duplicate-free. -/
theorem mapInsert_nodupKeys (m : List (Bytes × Cosignature)) (k : Bytes) (cs : Cosignature)
    (h : (m.map Prod.fst).Nodup) : ((mapInsert m k cs).map Prod.fst).Nodup := by
  unfold mapInsert
  rw [List.map_append, List.nodup_append]
  refine ⟨(h.sublist ((List.filter_sublist m).map Prod.fst)), by simp, ?_⟩
  intro a ha hb
  simp only [List.map_singleton, List.mem_singleton] at hb
  subst hb
  obtain ⟨p, hp, hpa⟩ := List.mem_map.mp ha
  have hpk := List.of_mem_filter hp
  subst hpa
  simp at hpk

/-- Every entry of the collection-loop result is an entry of the starting map
or comes from a listed witness: its key is that witness's key hash and its
cosignature verified against that witness's public key. -/
theorem mem_getCosignaturesAux (hashBytes : Bytes → Bytes)
    (verifyByKey : Bytes → Bytes → Option Cosignature)
    (ws : List (Bytes × List WitnessResp)) (m : List (Bytes × Cosignature))
    (k : Bytes) (cs : Cosignature)
    (h : (k, cs) ∈ GetCosignaturesAux hashBytes verifyByKey ws m) :
    (k, cs) ∈ m ∨ ∃ publicKey script, (publicKey, script) ∈ ws ∧
      k = hashBytes publicKey ∧ ∃ sigs, verifyByKey publicKey sigs = some cs := by
  induction ws generalizing m with
  | nil => exact Or.inl h
  | cons pw ws ih =>
    obtain ⟨publicKey, script⟩ := pw
    simp only [GetCosignaturesAux] at h
    cases hg : getCosignature verifyByKey script (newWitness hashBytes publicKey) with
    | none =>
      rw [hg] at h
      rcases ih m h with h | ⟨p, s, hmem, hk, hsig⟩
      · exact Or.inl h
      · exact Or.inr ⟨p, s, by simp [hmem], hk, hsig⟩
    | some kcs =>
      obtain ⟨k0, cs0⟩ := kcs
      rw [hg] at h
      rcases ih (mapInsert m k0 cs0) h with h | ⟨p, s, hmem, hk, hsig⟩
      · rcases mem_mapInsert m k0 k cs0 cs h with h | ⟨hk, hcs⟩
        · exact Or.inl h
        · obtain ⟨hkh, sigs, hv⟩ := getCosignature_some verifyByKey script _ k0 cs0 hg
          subst hk
          subst hcs
          exact Or.inr ⟨publicKey, script, by simp, by simpa [newWitness] using hkh,
            sigs, by simpa [newWitness] using hv⟩
      · exact Or.inr ⟨p, s, by simp [hmem], hk, hsig⟩

/-- The collection loop keeps the map's keys duplicate-free. -/
theorem getCosignaturesAux_nodupKeys (hashBytes : Bytes → Bytes)
    (verifyByKey : Bytes → Bytes → Option Cosignature)
    (ws : List (Bytes × List WitnessResp)) (m : List (Bytes × Cosignature))
    (h : (m.map Prod.fst).Nodup) :
    ((GetCosignaturesAux hashBytes verifyByKey ws m).map Prod.fst).Nodup := by
  induction ws generalizing m with
  | nil => exact h
  | cons pw ws ih =>
    obtain ⟨publicKey, script⟩ := pw
    simp only [GetCosignaturesAux]
    cases getCosignature verifyByKey script (newWitness hashBytes publicKey) with
    | none => exact ih m h
    | some kcs => exact ih (mapInsert m kcs.1 kcs.2) (mapInsert_nodupKeys m kcs.1 kcs.2 h)

/-- A witness whose query fails contributes nothing: the loop result is the one
without that witness. -/
theorem getCosignaturesAux_skip_err (hashBytes : Bytes → Bytes)
    (verifyByKey : Bytes → Bytes → Option Cosignature)
    (ws1 : List (Bytes × List WitnessResp)) (publicKey : Bytes) (script : List WitnessResp)
    (ws2 : List (Bytes × List WitnessResp)) (m : List (Bytes × Cosignature))
    (herr : getCosignature verifyByKey script (newWitness hashBytes publicKey) = none) :
    GetCosignaturesAux hashBytes verifyByKey (ws1 ++ (publicKey, script) :: ws2) m =
      GetCosignaturesAux hashBytes verifyByKey (ws1 ++ ws2) m := by
  induction ws1 generalizing m with
  | nil => simp [GetCosignaturesAux, herr]
  | cons pw ws1 ih =>
    obtain ⟨p, s⟩ := pw
    simp only [List.cons_append, GetCosignaturesAux]
    cases getCosignature verifyByKey s (newWitness hashBytes p) with
    | none => exact ih m
    | some kcs => exact ih (mapInsert m kcs.1 kcs.2)

/-- C10: `GetCosignatures` never fails as a whole — it always returns a map
whose entries are keyed by the hash of a listed witness's public key and hold
only cosignatures that verified against that witness's key, with at most one
entry per key; a witness whose query errors contributes no entry and does not
abort the collection of the others. -/
theorem getCosignatures_properties (hashBytes : Bytes → Bytes)
    (verifyByKey : Bytes → Bytes → Option Cosignature) :
    (∀ ws k cs, (k, cs) ∈ GetCosignatures hashBytes verifyByKey ws →
      ∃ publicKey script, (publicKey, script) ∈ ws ∧ k = hashBytes publicKey ∧
        ∃ sigs, verifyByKey publicKey sigs = some cs) ∧
    (∀ ws, ((GetCosignatures hashBytes verifyByKey ws).map Prod.fst).Nodup) ∧
    (∀ ws1 publicKey script ws2,
      getCosignature verifyByKey script (newWitness hashBytes publicKey) = none →
      GetCosignatures hashBytes verifyByKey (ws1 ++ (publicKey, script) :: ws2) =
        GetCosignatures hashBytes verifyByKey (ws1 ++ ws2)) := by
  refine ⟨?_, ?_, ?_⟩
  · intro ws k cs h
    rcases mem_getCosignaturesAux hashBytes verifyByKey ws [] k cs h with h | h
    · exact absurd h (List.not_mem_nil _)
    · exact h
  · intro ws
    exact getCosignaturesAux_nodupKeys hashBytes verifyByKey ws [] (by simp)
  · intro ws1 publicKey script ws2 herr
    exact getCosignaturesAux_skip_err hashBytes verifyByKey ws1 publicKey script ws2 [] herr

/-- C10 witness: a witness whose consistency-proof query errors is skipped,
evaluated with one concrete witness and no others. -/
theorem getCosignatures_properties_witness :
    GetCosignatures (fun bs => bs) (fun _ _ => none) ([] ++ ([5], [.proofErr]) :: []) =
      GetCosignatures (fun bs => bs) (fun _ _ => none) ([] ++ []) :=
  (getCosignatures_properties (fun bs => bs) (fun _ _ => none)).2.2 [] [5] [.proofErr] []
    (by decide)

end Stfe
